import Mathlib

/-!
Verification development for the island-awards leaderboard program (`app.py`).

The program fetches a summit list, per-summit activation records and
callsign lookups, aggregates them into a nested structure
`year -> callsign -> set of summit codes` (`activations_by_year` in the
source), and derives a current-year summary, a most-common-summit
statistic, a per-operator current-year table and a top-2-per-year table.

The embedding below follows the source line by line:

* `get_callsign` models the callsign lookup (lines 25-31): on HTTP 200 it
  reads the optional `callsign` field with default `"Unknown"`, on any
  other status it returns `"Unknown"`; it is a total function, so it never
  raises.
* `processActivation` models one iteration of the inner loop
  (lines 57-66): a falsy date (absent field or empty string) skips via
  `continue`; a non-empty date is parsed by `datetime.fromisoformat`
  *before* the `userId` check, so an unparseable date raises even when
  `userId` is missing; a missing `userId` then skips; otherwise the summit
  code is inserted into the set at `index[year][callsign]`.
* Python's `defaultdict(lambda: defaultdict(set))` is embedded as nested
  association lists in insertion order (`Index`), with `addToIndex` /
  `addToCallsignMap` / `addCode` performing the auto-creating insert of
  line 66; a set is a duplicate-free list.
* Raising is embedded as `Except.error`; the per-record, per-summit loops
  (`processActivations`, `processSummits`) propagate errors exactly as an
  uncaught Python exception would abort the loops.
* The analytics mirror lines 84, 97-102, 121-129 and 142-160; the pandas
  calls are modelled from their documented semantics (see the individual
  doc comments), in particular `Series.mode` returns the maximally
  frequent values in sorted order, and `DataFrame.sort_values` on a frame
  built from an empty list of records raises a `KeyError` because the
  empty frame has no columns.
-/

set_option linter.unusedVariables false

/-- One element of the `summits` array (fields `summitCode`, `name`). -/
structure Summit where
  summitCode : String
  name : String
deriving DecidableEq

/-- One activation record; both fields are optional in the JSON
(`activation.get("activationDate")`, `activation.get("userId")`). -/
structure Activation where
  activationDate : Option String
  userId : Option Nat
deriving DecidableEq

/-- Response of the activator lookup endpoint: an HTTP status code and the
optional `callsign` field of the JSON body. -/
structure ActivatorResponse where
  status_code : Nat
  callsign : Option String
deriving DecidableEq

/-- Lines 25-31 of the source: `get_callsign`.  The HTTP layer is passed in
as a function from user id to response.  On status 200 the optional
`callsign` field is read with default `"Unknown"` (`.get("callsign",
"Unknown")`); any other status yields `"Unknown"`.  Total, hence it never
raises. -/
def get_callsign (http : Nat → ActivatorResponse) (user_id : Nat) : String :=
  let response := http user_id
  if response.status_code = 200 then (response.callsign).getD "Unknown"
  else "Unknown"

/-- Modelled from the Python standard library: `datetime.fromisoformat(s).year`.
Accepts strings shaped `YYYY-MM-DD...` (four digits, dash, two digits,
dash, two digits) and returns the leading four-digit year; on any other
shape it returns `none`, standing for the `ValueError` the library raises.
Month/day range checks and validation of the tail after the day are
abstracted away; the strings this development evaluates on are either
fully valid ISO dates or fail the shape check here and in Python alike. -/
def fromisoformatYear (s : String) : Option Nat :=
  match s.toList with
  | y1 :: y2 :: y3 :: y4 :: rest =>
    if y1.isDigit && y2.isDigit && y3.isDigit && y4.isDigit then
      match rest with
      | '-' :: m1 :: m2 :: '-' :: d1 :: d2 :: _ =>
        if m1.isDigit && m2.isDigit && d1.isDigit && d2.isDigit then
          some (1000 * (y1.toNat - 48) + 100 * (y2.toNat - 48) +
                10 * (y3.toNat - 48) + (y4.toNat - 48))
        else none
      | _ => none
    else none
  | _ => none

/-- Inner map of the aggregation structure: callsign → set of summit codes,
in insertion order; the set is a duplicate-free list. -/
abbrev CallsignMap := List (String × List String)

/-- The AggregationIndex: year → callsign → set of summit codes, embedding
the `defaultdict(lambda: defaultdict(set))` of line 50 in insertion order. -/
abbrev Index := List (Nat × CallsignMap)

/-- Line 66's `set.add`: insert `code` if it is not already a member. -/
def addCode (codes : List String) (code : String) : List String :=
  if code ∈ codes then codes else codes ++ [code]

/-- The inner half of line 66's `index[year][callsign].add(code)`:
update the entry for `cs`, creating it on first use. -/
def addToCallsignMap (m : CallsignMap) (cs code : String) : CallsignMap :=
  match m with
  | [] => [(cs, [code])]
  | q :: rest =>
    if q.1 = cs then (q.1, addCode q.2 code) :: rest
    else q :: addToCallsignMap rest cs code

/-- Line 66, `activations_by_year[year][callsign].add(summit_code)`:
update the entry for `year`, creating it on first use. -/
def addToIndex (idx : Index) (year : Nat) (cs code : String) : Index :=
  match idx with
  | [] => [(year, [(cs, [code])])]
  | p :: rest =>
    if p.1 = year then (p.1, addToCallsignMap p.2 cs code) :: rest
    else p :: addToIndex rest year cs code

/-- Lines 57-66, one iteration of the inner loop.  `if not date: continue`
skips an absent or empty date; `datetime.fromisoformat(date)` (line 61)
runs before the `userId` check (lines 62-64) and raises on an unparseable
date; a missing `userId` skips; otherwise the callsign is resolved and the
summit code inserted. -/
def processActivation (resolver : Nat → String) (summit_code : String)
    (idx : Index) (a : Activation) : Except String Index :=
  match a.activationDate with
  | none => .ok idx
  | some date =>
    if date.isEmpty then .ok idx
    else
      match fromisoformatYear date with
      | none => .error "ValueError: Invalid isoformat string"
      | some year =>
        match a.userId with
        | none => .ok idx
        | some user_id => .ok (addToIndex idx year (resolver user_id) summit_code)

/-- The inner `for activation in activations` loop (lines 57-66); an
uncaught exception aborts the loop. -/
def processActivations (resolver : Nat → String) (summit_code : String)
    (idx : Index) : List Activation → Except String Index
  | [] => .ok idx
  | a :: rest =>
    match processActivation resolver summit_code idx a with
    | .error e => .error e
    | .ok idx2 => processActivations resolver summit_code idx2 rest

/-- The outer `for idx, summit in enumerate(summits)` loop (lines 53-68);
each summit's activation list comes from `fetch_activations`. -/
def processSummits (resolver : Nat → String)
    (fetch_activations : String → List Activation)
    (idx : Index) : List Summit → Except String Index
  | [] => .ok idx
  | s :: rest =>
    match processActivations resolver s.summitCode idx (fetch_activations s.summitCode) with
    | .error e => .error e
    | .ok idx2 => processSummits resolver fetch_activations idx2 rest

/-- Lines 50-66: the whole aggregation pass, starting from the empty
defaultdict.  The callsign resolver and per-summit activation fetch are
passed in as functions. -/
def activations_by_year (resolver : Nat → String)
    (fetch_activations : String → List Activation)
    (summits : List Summit) : Except String Index :=
  processSummits resolver fetch_activations [] summits

/-- Line 68: the arguments `(idx + 1, total)` of the division
`(idx + 1) / total` passed to `progress.progress`, one per loop iteration.
A division by zero would occur exactly at a report whose second component
is `0`; with zero summits the loop body never runs and this list is empty. -/
def progressReports (summits : List Summit) : List (Nat × Nat) :=
  (List.range summits.length).map (fun i => (i + 1, summits.length))

/-- Dictionary lookup `activations_by_year[year]` (read-only use on an
existing key; `[]` when the year is absent, matching the guarded uses in
the source where absent years are never accessed). -/
def lookupYear (idx : Index) (year : Nat) : CallsignMap :=
  match idx with
  | [] => []
  | p :: rest => if p.1 = year then p.2 else lookupYear rest year

/-- Line 84: `sum(len(s) for s in activations_by_year[current_year].values())`. -/
def total_activations (idx : Index) (year : Nat) : Nat :=
  ((lookupYear idx year).map (fun q => q.2.length)).sum

/-- Lines 97-99: `all_summits`, the concatenation of all summit sets of the
given year's callsigns. -/
def all_summits (idx : Index) (year : Nat) : List String :=
  ((lookupYear idx year).map (fun q => q.2)).flatten

/-- The maximal multiplicity of any value of `l` (the count realised by a
statistical mode of `l`). -/
def maxFreq (l : List String) : Nat :=
  ((l.dedup).map (fun x => l.count x)).foldr max 0

/-- Lexicographic comparison of char lists by code point, the order Python
uses on strings and pandas uses to sort string values. -/
def charListLe : List Char → List Char → Bool
  | [], _ => true
  | _ :: _, [] => false
  | c :: cs, d :: ds =>
    if c.toNat < d.toNat then true
    else if d.toNat < c.toNat then false
    else charListLe cs ds

/-- Lexicographic (code-point) order on strings. -/
def strLe (a b : String) : Prop := charListLe a.toList b.toList = true

instance : DecidableRel strLe :=
  fun a b => inferInstanceAs (Decidable (charListLe a.toList b.toList = true))

/-- Modelled from pandas: `pd.Series(l).mode()`, the list of maximally
frequent values of `l`, returned in sorted (ascending, lexicographic)
order as documented for `Series.mode`. -/
def seriesMode (l : List String) : List String :=
  List.insertionSort strLe
    ((l.dedup).filter (fun x => decide (l.count x = maxFreq l)))

/-- Line 102: `pd.Series(all_summits).mode()[0]`, guarded by
`if all_summits:`; `none` when the year has no memberships. -/
def most_common_code (idx : Index) (year : Nat) : Option String :=
  (seriesMode (all_summits idx year)).head?

/-- The number of callsign entries of `year` whose summit set contains
`code`; on a well-formed index (no duplicate callsign keys) this is the
number of distinct callsigns that activated `code` in `year`. -/
def numActivators (idx : Index) (year : Nat) (code : String) : Nat :=
  (lookupYear idx year).countP (fun q => decide (code ∈ q.2))

/-- One row of the current-year table (lines 121-126). -/
structure CurrentRow where
  Callsign : String
  SummitsActivated : Nat
deriving DecidableEq

/-- Lines 121-126: one row per callsign of the year, count = size of its
summit set, in dictionary (insertion) order. -/
def rows_current (idx : Index) (year : Nat) : List CurrentRow :=
  (lookupYear idx year).map (fun q => ⟨q.1, q.2.length⟩)

/-- Sort key of line 129: `Summits Activated` descending. -/
def currentRowGe (a b : CurrentRow) : Prop :=
  b.SummitsActivated ≤ a.SummitsActivated

instance : DecidableRel currentRowGe :=
  fun a b => inferInstanceAs (Decidable (b.SummitsActivated ≤ a.SummitsActivated))

instance : IsTotal CurrentRow currentRowGe :=
  ⟨fun a b => le_total b.SummitsActivated a.SummitsActivated⟩

instance : IsTrans CurrentRow currentRowGe :=
  ⟨fun a b c h1 h2 => le_trans h2 h1⟩

/-- Lines 128-129: `pd.DataFrame(rows_current).sort_values(by="Summits
Activated", ascending=False)`.  Modelled from pandas: a frame built from an
empty record list has no columns, so `sort_values` raises a `KeyError`
there; otherwise the rows are sorted by count descending. -/
def df_current (idx : Index) (year : Nat) : Except String (List CurrentRow) :=
  if rows_current idx year = [] then .error "KeyError: Summits Activated"
  else .ok (List.insertionSort currentRowGe (rows_current idx year))

/-- One row of the top-2-per-year table (lines 152-157). -/
structure TopRow where
  Year : Nat
  Rank : Nat
  Callsign : String
  SummitsActivated : Nat
deriving DecidableEq

/-- Sort key of lines 145-148: summit-set size descending. -/
def activatorGe (a b : String × List String) : Prop :=
  b.2.length ≤ a.2.length

instance : DecidableRel activatorGe :=
  fun a b => inferInstanceAs (Decidable (b.2.length ≤ a.2.length))

instance : IsTotal (String × List String) activatorGe :=
  ⟨fun a b => le_total b.2.length a.2.length⟩

instance : IsTrans (String × List String) activatorGe :=
  ⟨fun a b c h1 h2 => le_trans h2 h1⟩

/-- Lines 145-149: `sorted(activator_data.items(), key=lambda x:
len(x[1]), reverse=True)[:2]`. -/
def sorted_activators (m : CallsignMap) : CallsignMap :=
  (List.insertionSort activatorGe m).take 2

/-- Lines 151-157: `enumerate(sorted_activators, start=1)` turned into
table rows. -/
def number_rows (year rank : Nat) : CallsignMap → List TopRow
  | [] => []
  | q :: rest => ⟨year, rank, q.1, q.2.length⟩ :: number_rows year (rank + 1) rest

/-- The rows contributed by one year of the top-2 loop. -/
def rows_for_year (idx : Index) (year : Nat) : List TopRow :=
  number_rows year 1 (sorted_activators (lookupYear idx year))

/-- Lines 142-157: the full `rows` list, years in ascending order
(`sorted(activations_by_year.keys())`). -/
def rows_top (idx : Index) : List TopRow :=
  ((List.insertionSort (fun a b => a ≤ b) (idx.map Prod.fst)).map
    (fun y => rows_for_year idx y)).flatten

/-- Sort key of line 160: year descending, then rank ascending. -/
def topRowLe (a b : TopRow) : Prop :=
  b.Year < a.Year ∨ (a.Year = b.Year ∧ a.Rank ≤ b.Rank)

instance : DecidableRel topRowLe := fun a b =>
  inferInstanceAs (Decidable (b.Year < a.Year ∨ (a.Year = b.Year ∧ a.Rank ≤ b.Rank)))

instance : IsTotal TopRow topRowLe := ⟨by
  intro a b
  unfold topRowLe
  omega⟩

instance : IsTrans TopRow topRowLe := ⟨by
  intro a b c h1 h2
  unfold topRowLe at h1 h2 ⊢
  omega⟩

/-- Lines 159-160: `pd.DataFrame(rows).sort_values(by=["Year", "Rank"],
ascending=[False, True])`.  Modelled from pandas: on an empty record list
the frame has no columns and `sort_values` raises `KeyError: 'Year'`;
otherwise the rows are sorted by year descending then rank ascending. -/
def df_top (idx : Index) : Except String (List TopRow) :=
  if rows_top idx = [] then .error "KeyError: Year"
  else .ok (List.insertionSort topRowLe (rows_top idx))

/-- Well-formedness of the inner map: callsign keys are distinct and every
summit set is a non-empty duplicate-free list. -/
def CMapWF (m : CallsignMap) : Prop :=
  (m.map Prod.fst).Nodup ∧ ∀ q ∈ m, q.2 ≠ [] ∧ q.2.Nodup

/-- Well-formedness of an AggregationIndex: year keys are distinct and
every inner map is a non-empty well-formed callsign map.  Every index the
aggregation pass produces satisfies this (`build_IndexWF`). -/
def IndexWF (idx : Index) : Prop :=
  (idx.map Prod.fst).Nodup ∧ ∀ p ∈ idx, p.2 ≠ [] ∧ CMapWF p.2

/-- Membership count of a (year, callsign, code) triple in the index: the
number of times `code` occurs in sets reached under key `year` then `cs`. -/
def tripleCount (idx : Index) (year : Nat) (cs code : String) : Nat :=
  (idx.map (fun p =>
    if p.1 = year then
      (p.2.map (fun q => if q.1 = cs then q.2.count code else 0)).sum
    else 0)).sum

/-- Total number of (year, callsign, code) memberships of the index. -/
def totalMemberships (idx : Index) : Nat :=
  (idx.map (fun p => (p.2.map (fun q => q.2.length)).sum)).sum

/-- The records the spec calls eligible: both a date and a user id present. -/
def eligibleCount (acts : List Activation) : Nat :=
  acts.countP (fun a => a.activationDate.isSome && a.userId.isSome)

/-! ### Concrete data used by the witnesses (scenario of spec §8) -/

/-- The single summit of the §8 scenario. -/
def summit0 : Summit := ⟨"GM/SI-001", "Isle A"⟩

/-- Callsign resolution of the §8 scenario: 7 ↦ MM0ABC, 9 ↦ MM0XYZ. -/
def resolver0 : Nat → String :=
  fun u => if u = 7 then "MM0ABC" else if u = 9 then "MM0XYZ" else "Unknown"

/-- Activation fetch of the §8 scenario: two 2024 events by user 7 on the
same summit and one 2023 event by user 9. -/
def fetch0 : String → List Activation := fun _ =>
  [⟨some "2024-05-01", some 7⟩, ⟨some "2024-06-01", some 7⟩,
   ⟨some "2023-01-01", some 9⟩]

/-- The index the §8 scenario builds. -/
def index0 : Index :=
  [(2024, [("MM0ABC", ["GM/SI-001"])]), (2023, [("MM0XYZ", ["GM/SI-001"])])]

/-- Two summits used to build a most-common-summit tie. -/
def summitsTie : List Summit := [⟨"GM/SI-002", "Isle B"⟩, ⟨"GM/SI-001", "Isle A"⟩]

/-- Tie scenario fetch: both users activate every summit in 2024. -/
def fetchTie : String → List Activation := fun _ =>
  [⟨some "2024-05-01", some 7⟩, ⟨some "2024-06-01", some 9⟩]

/-- The index of the tie scenario: both codes occur in two callsigns' sets. -/
def tieIndex : Index :=
  [(2024, [("MM0ABC", ["GM/SI-002", "GM/SI-001"]),
           ("MM0XYZ", ["GM/SI-002", "GM/SI-001"])])]

/-- A fetch answering one record whose date is present, non-empty and not
ISO-8601 parseable. -/
def fetchBad : String → List Activation := fun _ => [⟨some "nope-date!", some 7⟩]

/-- A concrete activator-lookup HTTP layer: user 7 resolves, user 9 gets a
404. -/
def http0 : Nat → ActivatorResponse :=
  fun u => if u = 7 then ⟨200, some "MM0ABC"⟩ else ⟨404, none⟩

example : activations_by_year resolver0 fetch0 [summit0] = .ok index0 := rfl

example : activations_by_year resolver0 fetchTie summitsTie = .ok tieIndex := rfl

example : most_common_code tieIndex 2024 = some "GM/SI-001" := rfl

example : df_top index0 = .ok [⟨2024, 1, "MM0ABC", 1⟩, ⟨2023, 1, "MM0XYZ", 1⟩] := rfl

example : df_current index0 2024 = .ok [⟨"MM0ABC", 1⟩] := rfl

example : total_activations index0 2024 = 1 := rfl

example : fromisoformatYear "2024-05-01" = some 2024 := rfl

example : fromisoformatYear "" = none := rfl

example : fromisoformatYear "bad-date" = none := rfl

/-! ### Order facts for the sort relations -/

theorem charListLe_total : ∀ xs ys : List Char,
    charListLe xs ys = true ∨ charListLe ys xs = true
  | [], ys => Or.inl rfl
  | x :: xs, [] => Or.inr rfl
  | x :: xs, y :: ys => by
    by_cases h1 : x.toNat < y.toNat
    · left; simp [charListLe, h1]
    · by_cases h2 : y.toNat < x.toNat
      · right; simp [charListLe, h2]
      · rcases charListLe_total xs ys with ih | ih
        · left; simp [charListLe, h1, h2, ih]
        · right; simp [charListLe, h1, h2, ih]

theorem charListLe_trans : ∀ xs ys zs : List Char,
    charListLe xs ys = true → charListLe ys zs = true → charListLe xs zs = true
  | [], _, _, _, _ => rfl
  | x :: xs, [], zs, h1, _ => by simp [charListLe] at h1
  | x :: xs, y :: ys, [], _, h2 => by simp [charListLe] at h2
  | x :: xs, y :: ys, z :: zs, h1, h2 => by
    simp only [charListLe] at h1 h2 ⊢
    rcases Nat.lt_trichotomy x.toNat y.toNat with hxy | hxy | hxy
    · have hzy : ¬ z.toNat < y.toNat := by
        intro hzy
        have hyz : ¬ y.toNat < z.toNat := by omega
        simp [hyz, hzy] at h2
      have hxz : x.toNat < z.toNat := by
        rcases Nat.lt_or_ge y.toNat z.toNat with h | h <;> omega
      simp [hxz]
    · have hxy1 : ¬ x.toNat < y.toNat := by omega
      have hxy2 : ¬ y.toNat < x.toNat := by omega
      simp only [hxy1, hxy2, if_false, if_neg] at h1
      rcases Nat.lt_trichotomy y.toNat z.toNat with hyz | hyz | hyz
      · have hxz : x.toNat < z.toNat := by omega
        simp [hxz]
      · have hyz1 : ¬ y.toNat < z.toNat := by omega
        have hyz2 : ¬ z.toNat < y.toNat := by omega
        simp only [hyz1, hyz2, if_false, if_neg] at h2
        have hxz1 : ¬ x.toNat < z.toNat := by omega
        have hxz2 : ¬ z.toNat < x.toNat := by omega
        simp only [hxz1, hxz2, if_false, if_neg]
        exact charListLe_trans xs ys zs h1 h2
      · have hyz1 : ¬ y.toNat < z.toNat := by omega
        simp [hyz1, hyz] at h2
    · have hxy1 : ¬ x.toNat < y.toNat := by omega
      simp [hxy1, hxy] at h1

instance : IsTotal String strLe :=
  ⟨fun a b => charListLe_total a.toList b.toList⟩

instance : IsTrans String strLe :=
  ⟨fun a b c h1 h2 => charListLe_trans a.toList b.toList c.toList h1 h2⟩

/-! ### Well-formedness is preserved by the insert of line 66 -/

theorem addCode_ne_nil (codes : List String) (code : String) : addCode codes code ≠ [] := by
  unfold addCode
  by_cases h : code ∈ codes
  · rw [if_pos h]
    rintro rfl
    simp at h
  · rw [if_neg h]
    simp

theorem addCode_nodup {codes : List String} (code : String) (hnd : codes.Nodup) :
    (addCode codes code).Nodup := by
  unfold addCode
  by_cases h : code ∈ codes
  · rwa [if_pos h]
  · rw [if_neg h]
    exact hnd.append (List.nodup_singleton code) (List.disjoint_singleton.2 h)

theorem addCode_length (codes : List String) (code : String) :
    (addCode codes code).length ≤ codes.length + 1 := by
  unfold addCode
  split <;> simp

theorem addToCallsignMap_ne_nil (m : CallsignMap) (cs code : String) :
    addToCallsignMap m cs code ≠ [] := by
  cases m with
  | nil => simp [addToCallsignMap]
  | cons q rest => unfold addToCallsignMap; split <;> simp

theorem keys_addToCallsignMap (m : CallsignMap) (cs code : String) :
    (addToCallsignMap m cs code).map Prod.fst =
      if cs ∈ m.map Prod.fst then m.map Prod.fst else m.map Prod.fst ++ [cs] := by
  induction m with
  | nil => simp [addToCallsignMap]
  | cons q rest ih =>
    by_cases h : q.1 = cs
    · simp [addToCallsignMap, h]
    · simp only [addToCallsignMap, if_neg h, List.map_cons, ih, List.mem_cons]
      by_cases h2 : cs ∈ rest.map Prod.fst
      · simp [h2, Ne.symm h]
      · simp [h2, Ne.symm h]

theorem mem_addToCallsignMap {m : CallsignMap} {cs code : String} {q : String × List String}
    (h : q ∈ addToCallsignMap m cs code) :
    q ∈ m ∨ (∃ codes, (cs, codes) ∈ m ∧ q = (cs, addCode codes code)) ∨ q = (cs, [code]) := by
  induction m with
  | nil =>
    simp only [addToCallsignMap, List.mem_singleton] at h
    exact Or.inr (Or.inr h)
  | cons q0 rest ih =>
    unfold addToCallsignMap at h
    by_cases heq : q0.1 = cs
    · rw [if_pos heq] at h
      rcases List.mem_cons.1 h with h | h
      · refine Or.inr (Or.inl ⟨q0.2, ?_, ?_⟩)
        · have : (cs, q0.2) = q0 := by rw [← heq]
          rw [this]
          exact List.mem_cons_self _ _
        · rw [h, heq]
      · exact Or.inl (List.mem_cons_of_mem _ h)
    · rw [if_neg heq] at h
      rcases List.mem_cons.1 h with h | h
      · exact Or.inl (by simp [h])
      · rcases ih h with h | ⟨codes, hm, he⟩ | h
        · exact Or.inl (List.mem_cons_of_mem _ h)
        · exact Or.inr (Or.inl ⟨codes, List.mem_cons_of_mem _ hm, he⟩)
        · exact Or.inr (Or.inr h)

theorem CMapWF_add {m : CallsignMap} (cs code : String) (h : CMapWF m) :
    CMapWF (addToCallsignMap m cs code) := by
  obtain ⟨hkeys, hmem⟩ := h
  constructor
  · rw [keys_addToCallsignMap]
    by_cases h2 : cs ∈ m.map Prod.fst
    · rwa [if_pos h2]
    · rw [if_neg h2]
      exact hkeys.append (List.nodup_singleton _) (List.disjoint_singleton.2 h2)
  · intro q hq
    rcases mem_addToCallsignMap hq with h | ⟨codes, hm, rfl⟩ | rfl
    · exact hmem q h
    · exact ⟨addCode_ne_nil _ _, addCode_nodup _ (hmem _ hm).2⟩
    · exact ⟨by simp, List.nodup_singleton _⟩

theorem keys_addToIndex (idx : Index) (year : Nat) (cs code : String) :
    (addToIndex idx year cs code).map Prod.fst =
      if year ∈ idx.map Prod.fst then idx.map Prod.fst else idx.map Prod.fst ++ [year] := by
  induction idx with
  | nil => simp [addToIndex]
  | cons p rest ih =>
    by_cases h : p.1 = year
    · simp [addToIndex, h]
    · simp only [addToIndex, if_neg h, List.map_cons, ih, List.mem_cons]
      by_cases h2 : year ∈ rest.map Prod.fst
      · simp [h2, Ne.symm h]
      · simp [h2, Ne.symm h]

theorem mem_addToIndex {idx : Index} {year : Nat} {cs code : String} {p : Nat × CallsignMap}
    (h : p ∈ addToIndex idx year cs code) :
    p ∈ idx ∨ (∃ m, (year, m) ∈ idx ∧ p = (year, addToCallsignMap m cs code)) ∨
      p = (year, [(cs, [code])]) := by
  induction idx with
  | nil =>
    simp only [addToIndex, List.mem_singleton] at h
    exact Or.inr (Or.inr h)
  | cons p0 rest ih =>
    unfold addToIndex at h
    by_cases heq : p0.1 = year
    · rw [if_pos heq] at h
      rcases List.mem_cons.1 h with h | h
      · refine Or.inr (Or.inl ⟨p0.2, ?_, ?_⟩)
        · have : (year, p0.2) = p0 := by rw [← heq]
          rw [this]
          exact List.mem_cons_self _ _
        · rw [h, heq]
      · exact Or.inl (List.mem_cons_of_mem _ h)
    · rw [if_neg heq] at h
      rcases List.mem_cons.1 h with h | h
      · exact Or.inl (by simp [h])
      · rcases ih h with h | ⟨m, hm, he⟩ | h
        · exact Or.inl (List.mem_cons_of_mem _ h)
        · exact Or.inr (Or.inl ⟨m, List.mem_cons_of_mem _ hm, he⟩)
        · exact Or.inr (Or.inr h)

theorem IndexWF_add {idx : Index} (year : Nat) (cs code : String) (h : IndexWF idx) :
    IndexWF (addToIndex idx year cs code) := by
  obtain ⟨hkeys, hmem⟩ := h
  constructor
  · rw [keys_addToIndex]
    by_cases h2 : year ∈ idx.map Prod.fst
    · rwa [if_pos h2]
    · rw [if_neg h2]
      exact hkeys.append (List.nodup_singleton _) (List.disjoint_singleton.2 h2)
  · intro p hp
    rcases mem_addToIndex hp with h | ⟨m, hm, rfl⟩ | rfl
    · exact hmem p h
    · exact ⟨addToCallsignMap_ne_nil _ _ _, CMapWF_add _ _ (hmem _ hm).2⟩
    · refine ⟨by simp, List.nodup_singleton _, ?_⟩
      intro q hq
      simp only [List.mem_singleton] at hq
      rw [hq]
      exact ⟨by simp, List.nodup_singleton _⟩

theorem IndexWF_processActivation {r : Nat → String} {c : String} {idx idx2 : Index}
    {a : Activation} (h : processActivation r c idx a = .ok idx2) (hwf : IndexWF idx) :
    IndexWF idx2 := by
  unfold processActivation at h
  split at h
  · exact (Except.ok.inj h) ▸ hwf
  · split at h
    · exact (Except.ok.inj h) ▸ hwf
    · split at h
      · simp at h
      · split at h
        · exact (Except.ok.inj h) ▸ hwf
        · exact (Except.ok.inj h) ▸ IndexWF_add _ _ _ hwf

theorem IndexWF_processActivations (r : Nat → String) (c : String) :
    ∀ (acts : List Activation) (idx idx2 : Index),
      processActivations r c idx acts = .ok idx2 → IndexWF idx → IndexWF idx2
  | [], idx, idx2, h, hwf => by
    simp only [processActivations] at h
    exact (Except.ok.inj h) ▸ hwf
  | a :: rest, idx, idx2, h, hwf => by
    simp only [processActivations] at h
    cases hpa : processActivation r c idx a with
    | error e => rw [hpa] at h; simp at h
    | ok idxm =>
      rw [hpa] at h
      exact IndexWF_processActivations r c rest idxm idx2 h (IndexWF_processActivation hpa hwf)

theorem IndexWF_processSummits (r : Nat → String) (f : String → List Activation) :
    ∀ (ss : List Summit) (idx idx2 : Index),
      processSummits r f idx ss = .ok idx2 → IndexWF idx → IndexWF idx2
  | [], idx, idx2, h, hwf => by
    simp only [processSummits] at h
    exact (Except.ok.inj h) ▸ hwf
  | s :: rest, idx, idx2, h, hwf => by
    simp only [processSummits] at h
    cases hpa : processActivations r s.summitCode idx (f s.summitCode) with
    | error e => rw [hpa] at h; simp at h
    | ok idxm =>
      rw [hpa] at h
      exact IndexWF_processSummits r f rest idxm idx2 h
        (IndexWF_processActivations r s.summitCode (f s.summitCode) idx idxm hpa hwf)

theorem build_IndexWF {r : Nat → String} {f : String → List Activation}
    {ss : List Summit} {idx : Index}
    (h : activations_by_year r f ss = .ok idx) : IndexWF idx :=
  IndexWF_processSummits r f ss [] idx h ⟨List.nodup_nil, by simp⟩

/-! ### Claim C1: each (year, callsign, code) triple appears at most once -/

theorem sum_if_fst_le_one {κ β : Type} [DecidableEq κ] (L : List (κ × β)) (k : κ)
    (g : κ × β → Nat) (hnd : (L.map Prod.fst).Nodup) (hg : ∀ q ∈ L, g q ≤ 1) :
    (L.map (fun q => if q.1 = k then g q else 0)).sum ≤ 1 := by
  induction L with
  | nil => simp
  | cons q rest ih =>
    simp only [List.map_cons, List.sum_cons]
    by_cases h : q.1 = k
    · rw [if_pos h]
      have hrest : ∀ p ∈ rest, ¬ (p.1 = k) := by
        intro p hp hpc
        have : q.1 ∈ rest.map Prod.fst := by
          rw [h, ← hpc]
          exact List.mem_map_of_mem _ hp
        exact (List.nodup_cons.1 hnd).1 this
      have hz : (rest.map (fun p => if p.1 = k then g p else 0)).sum = 0 := by
        apply List.sum_eq_zero
        intro x hx
        rcases List.mem_map.1 hx with ⟨p, hp, rfl⟩
        rw [if_neg (hrest p hp)]
      rw [hz]
      have := hg q (List.mem_cons_self _ _)
      omega
    · rw [if_neg h]
      have := ih (List.nodup_cons.1 hnd).2 (fun p hp => hg p (List.mem_cons_of_mem _ hp))
      omega

theorem tripleCount_le_one {idx : Index} (hwf : IndexWF idx) (y : Nat) (cs code : String) :
    tripleCount idx y cs code ≤ 1 := by
  unfold tripleCount
  apply sum_if_fst_le_one idx y _ hwf.1
  intro p hp
  apply sum_if_fst_le_one p.2 cs _ ((hwf.2 p hp).2).1
  intro q hq
  exact List.nodup_iff_count_le_one.1 ((hwf.2 p hp).2.2 q hq).2 code

/-- C1: in every AggregationIndex produced by the aggregation pass, each
(year, callsign, summit code) triple appears at most once, no matter how
many activation events with that year, operator and summit were ingested:
duplicate activations collapse to a single set membership. -/
theorem spec_C1 (resolver : Nat → String) (fetch_activations : String → List Activation)
    (summits : List Summit) (idx : Index)
    (h : activations_by_year resolver fetch_activations summits = .ok idx)
    (year : Nat) (cs code : String) :
    tripleCount idx year cs code ≤ 1 :=
  tripleCount_le_one (build_IndexWF h) year cs code

/-- C1 witness: the §8 scenario ingests two 2024 activations of the same
summit by the same operator; the triple still appears at most once. -/
theorem spec_C1_witness : tripleCount index0 2024 "MM0ABC" "GM/SI-001" ≤ 1 :=
  spec_C1 resolver0 fetch0 [summit0] index0 rfl 2024 "MM0ABC" "GM/SI-001"

/-! ### Claim C3: total memberships never exceed eligible records -/

theorem mapWeight_addToCallsignMap (m : CallsignMap) (cs code : String) :
    ((addToCallsignMap m cs code).map (fun q => q.2.length)).sum ≤
      (m.map (fun q => q.2.length)).sum + 1 := by
  induction m with
  | nil => simp [addToCallsignMap]
  | cons q rest ih =>
    unfold addToCallsignMap
    by_cases h : q.1 = cs
    · rw [if_pos h]
      simp only [List.map_cons, List.sum_cons]
      have := addCode_length q.2 code
      omega
    · rw [if_neg h]
      simp only [List.map_cons, List.sum_cons]
      omega

theorem totalMemberships_addToIndex (idx : Index) (year : Nat) (cs code : String) :
    totalMemberships (addToIndex idx year cs code) ≤ totalMemberships idx + 1 := by
  induction idx with
  | nil => simp [addToIndex, totalMemberships]
  | cons p rest ih =>
    unfold addToIndex
    by_cases h : p.1 = year
    · rw [if_pos h]
      simp only [totalMemberships, List.map_cons, List.sum_cons]
      have := mapWeight_addToCallsignMap p.2 cs code
      omega
    · rw [if_neg h]
      simp only [totalMemberships, List.map_cons, List.sum_cons] at ih ⊢
      omega

theorem totalMemberships_processActivation {r : Nat → String} {c : String}
    {idx idx2 : Index} {a : Activation} (h : processActivation r c idx a = .ok idx2) :
    totalMemberships idx2 ≤ totalMemberships idx +
      (if a.activationDate.isSome && a.userId.isSome then 1 else 0) := by
  cases hd : a.activationDate with
  | none =>
    simp only [processActivation, hd] at h
    cases Except.ok.inj h
    simp
  | some date =>
    simp only [processActivation, hd] at h
    by_cases he : date.isEmpty
    · rw [if_pos he] at h
      cases Except.ok.inj h
      split <;> omega
    · rw [if_neg he] at h
      cases hy : fromisoformatYear date with
      | none => simp only [hy] at h; simp at h
      | some year =>
        simp only [hy] at h
        cases hu : a.userId with
        | none =>
          simp only [hu] at h
          cases Except.ok.inj h
          split <;> omega
        | some uid =>
          simp only [hu] at h
          cases Except.ok.inj h
          have := totalMemberships_addToIndex idx year (r uid) c
          simp only [hd, hu, Option.isSome_some, Bool.and_self, if_true]
          omega

theorem totalMemberships_processActivations (r : Nat → String) (c : String) :
    ∀ (acts : List Activation) (idx idx2 : Index),
      processActivations r c idx acts = .ok idx2 →
      totalMemberships idx2 ≤ totalMemberships idx + eligibleCount acts
  | [], idx, idx2, h => by
    simp only [processActivations] at h
    cases Except.ok.inj h
    simp [eligibleCount]
  | a :: rest, idx, idx2, h => by
    simp only [processActivations] at h
    cases hpa : processActivation r c idx a with
    | error e => rw [hpa] at h; simp at h
    | ok idxm =>
      rw [hpa] at h
      have h1 := totalMemberships_processActivation hpa
      have h2 := totalMemberships_processActivations r c rest idxm idx2 h
      have h3 : eligibleCount (a :: rest) = eligibleCount rest +
          (if a.activationDate.isSome && a.userId.isSome then 1 else 0) := by
        simp [eligibleCount, List.countP_cons]
      rw [h3]
      omega

theorem totalMemberships_processSummits (r : Nat → String) (f : String → List Activation) :
    ∀ (ss : List Summit) (idx idx2 : Index),
      processSummits r f idx ss = .ok idx2 →
      totalMemberships idx2 ≤ totalMemberships idx +
        (ss.map (fun s => eligibleCount (f s.summitCode))).sum
  | [], idx, idx2, h => by
    simp only [processSummits] at h
    cases Except.ok.inj h
    simp
  | s :: rest, idx, idx2, h => by
    simp only [processSummits] at h
    cases hpa : processActivations r s.summitCode idx (f s.summitCode) with
    | error e => rw [hpa] at h; simp at h
    | ok idxm =>
      rw [hpa] at h
      have h1 := totalMemberships_processActivations r s.summitCode (f s.summitCode) idx idxm hpa
      have h2 := totalMemberships_processSummits r f rest idxm idx2 h
      simp only [List.map_cons, List.sum_cons]
      omega

/-- C3: for every input, the total summit-membership count of a
successfully built AggregationIndex is at most the number of input
activation records that carry both a date and a user id. -/
theorem spec_C3 (resolver : Nat → String) (fetch_activations : String → List Activation)
    (summits : List Summit) (idx : Index)
    (h : activations_by_year resolver fetch_activations summits = .ok idx) :
    totalMemberships idx ≤
      (summits.map (fun s => eligibleCount (fetch_activations s.summitCode))).sum := by
  have := totalMemberships_processSummits resolver fetch_activations summits [] idx h
  simpa [totalMemberships] using this

/-- C3 witness: the §8 scenario has three eligible records but only two
memberships survive de-duplication. -/
theorem spec_C3_witness :
    totalMemberships index0 ≤
      ([summit0].map (fun s => eligibleCount (fetch0 s.summitCode))).sum :=
  spec_C3 resolver0 fetch0 [summit0] index0 rfl

/-! ### Claim C4: which records are silently skipped -/

/-- C4 counterexample: a record whose user id is missing but whose date is
present, non-empty and unparseable is *not* silently skipped — the date is
parsed before the user-id check, so the pass raises on it. -/
theorem spec_C4_counterexample :
    (Activation.mk (some "bad-date") none).userId = none ∧
    processActivation (fun _ => "Unknown") "GM/SI-001" [] ⟨some "bad-date", none⟩ =
      .error "ValueError: Invalid isoformat string" :=
  ⟨rfl, rfl⟩

/-- C4 (amended): a record whose date is missing is skipped silently, and a
record whose user id is missing is skipped silently provided its date is
absent, empty, or ISO-parseable; the skipped record contributes nothing
and the pass continues exactly as if it had not been in the input. -/
theorem spec_C4 (resolver : Nat → String) (summit_code : String) (idx : Index)
    (a : Activation)
    (h : a.activationDate = none ∨
      (a.userId = none ∧ ∀ d, a.activationDate = some d →
        d.isEmpty = true ∨ (fromisoformatYear d).isSome = true)) :
    processActivation resolver summit_code idx a = .ok idx ∧
    ∀ rest, processActivations resolver summit_code idx (a :: rest) =
      processActivations resolver summit_code idx rest := by
  have h1 : processActivation resolver summit_code idx a = .ok idx := by
    rcases h with hd | ⟨hu, hd⟩
    · simp [processActivation, hd]
    · cases hds : a.activationDate with
      | none => simp [processActivation, hds]
      | some d =>
        rcases hd d hds with he | hp
        · simp [processActivation, hds, he]
        · cases hy : fromisoformatYear d with
          | none => rw [hy] at hp; simp at hp
          | some year => simp [processActivation, hds, hy, hu]
  refine ⟨h1, fun rest => ?_⟩
  simp only [processActivations, h1]

/-- C4 witness: a record with a user id but no date is skipped. -/
theorem spec_C4_witness :
    processActivation resolver0 "GM/SI-001" [] ⟨none, some 7⟩ = .ok [] :=
  (spec_C4 resolver0 "GM/SI-001" [] ⟨none, some 7⟩ (Or.inl rfl)).1

/-! ### Claim C5: unparseable dates abort the run -/

/-- C5 counterexample: the empty string is a present date that
`datetime.fromisoformat` cannot parse, yet `if not date:` skips the record
instead of raising. -/
theorem spec_C5_counterexample :
    (some "" : Option String) ≠ none ∧ fromisoformatYear "" = none ∧
    processActivation resolver0 "GM/SI-001" [] ⟨some "", some 7⟩ = .ok [] :=
  ⟨by simp, rfl, rfl⟩

theorem processActivation_error {r : Nat → String} {c : String} {idx : Index}
    {a : Activation} {d : String} (hd : a.activationDate = some d)
    (hne : d.isEmpty = false) (hp : fromisoformatYear d = none) :
    processActivation r c idx a = .error "ValueError: Invalid isoformat string" := by
  simp [processActivation, hd, hne, hp]

theorem processActivations_error (r : Nat → String) (c : String) {a : Activation}
    {d : String} (hd : a.activationDate = some d) (hne : d.isEmpty = false)
    (hp : fromisoformatYear d = none) :
    ∀ (acts : List Activation), a ∈ acts → ∀ idx : Index,
      ∃ e, processActivations r c idx acts = .error e
  | [], hmem, idx => absurd hmem (List.not_mem_nil a)
  | b :: rest, hmem, idx => by
    simp only [processActivations]
    rcases List.mem_cons.1 hmem with rfl | hmem2
    · rw [processActivation_error hd hne hp]
      exact ⟨_, rfl⟩
    · cases hpb : processActivation r c idx b with
      | error e => exact ⟨e, rfl⟩
      | ok idxm => exact processActivations_error r c hd hne hp rest hmem2 idxm

theorem processSummits_error (r : Nat → String) (f : String → List Activation)
    {s : Summit} {a : Activation} {d : String} (hd : a.activationDate = some d)
    (hne : d.isEmpty = false) (hp : fromisoformatYear d = none)
    (ha : a ∈ f s.summitCode) :
    ∀ (ss : List Summit), s ∈ ss → ∀ idx : Index,
      ∃ e, processSummits r f idx ss = .error e
  | [], hmem, idx => absurd hmem (List.not_mem_nil s)
  | t :: rest, hmem, idx => by
    simp only [processSummits]
    rcases List.mem_cons.1 hmem with rfl | hmem2
    · obtain ⟨e, he⟩ := processActivations_error r s.summitCode hd hne hp
        (f s.summitCode) ha idx
      rw [he]
      exact ⟨e, rfl⟩
    · cases hpb : processActivations r t.summitCode idx (f t.summitCode) with
      | error e => exact ⟨e, rfl⟩
      | ok idxm => exact processSummits_error r f hd hne hp ha rest hmem2 idxm

/-- C5 (amended): whenever any fetched record of any input summit carries a
date that is present, *non-empty* and not ISO-8601 parseable, the whole
aggregation pass raises an uncaught error (the run terminates) rather than
skipping the record.  (The empty string, although present and unparseable,
is skipped by `if not date:` — see the counterexample.) -/
theorem spec_C5 (resolver : Nat → String) (fetch_activations : String → List Activation)
    (summits : List Summit) (s : Summit) (a : Activation) (d : String)
    (hs : s ∈ summits) (ha : a ∈ fetch_activations s.summitCode)
    (hd : a.activationDate = some d) (hne : d.isEmpty = false)
    (hp : fromisoformatYear d = none) :
    ∃ e, activations_by_year resolver fetch_activations summits = .error e :=
  processSummits_error resolver fetch_activations hd hne hp ha summits hs []

/-- C5 witness: one summit whose single record has the unparseable date
`"nope-date!"`; the run fails. -/
theorem spec_C5_witness :
    (activations_by_year resolver0 fetchBad [summit0]).isOk = false := by
  obtain ⟨e, he⟩ := spec_C5 resolver0 fetchBad [summit0] summit0
    ⟨some "nope-date!", some 7⟩ "nope-date!" (by simp) (by simp [fetchBad]) rfl rfl rfl
  rw [he]
  rfl

/-! ### Claim C6: callsign resolution degrades to "Unknown" -/

/-- C6: `get_callsign` returns `"Unknown"` when the lookup responds with a
non-success status or when the 200 response omits the callsign field, and
returns the callsign value of a 200 response that contains it; being a
total function, it never raises. -/
theorem spec_C6 (http : Nat → ActivatorResponse) (user_id : Nat) :
    (((http user_id).status_code ≠ 200 ∨ (http user_id).callsign = none) →
      get_callsign http user_id = "Unknown") ∧
    (∀ c, (http user_id).status_code = 200 → (http user_id).callsign = some c →
      get_callsign http user_id = c) := by
  constructor
  · intro h
    rcases h with h | h
    · simp [get_callsign, h]
    · by_cases hs : (http user_id).status_code = 200
      · simp [get_callsign, hs, h]
      · simp [get_callsign, hs]
  · intro c hs hc
    simp [get_callsign, hs, hc]

/-- C6 witness: user 9's lookup 404s and degrades to `"Unknown"`, user 7's
200 response resolves to its callsign. -/
theorem spec_C6_witness :
    get_callsign http0 9 = "Unknown" ∧ get_callsign http0 7 = "MM0ABC" :=
  ⟨(spec_C6 http0 9).1 (Or.inl (by decide)),
   (spec_C6 http0 7).2 "MM0ABC" (by decide) (by decide)⟩

/-! ### Claim C7: the zero-summits run -/

/-- C7 at the failing input: with zero summits the aggregation pass yields
the empty index and the progress loop body never runs (so no division by
zero is even attempted), and the current-year analytics are empty without
error — but the top-2-per-year table construction fails: `pd.DataFrame([])`
has no columns, so `sort_values(by=["Year", "Rank"])` raises a `KeyError`
instead of returning an empty result. -/
theorem spec_C7_zero_summits (resolver : Nat → String)
    (fetch_activations : String → List Activation) (year : Nat) :
    activations_by_year resolver fetch_activations [] = .ok [] ∧
    progressReports [] = [] ∧
    total_activations [] year = 0 ∧
    rows_current [] year = [] ∧
    most_common_code [] year = none ∧
    df_top ([] : Index) = .error "KeyError: Year" :=
  ⟨rfl, rfl, rfl, rfl, rfl, rfl⟩

/-! ### Claim C8: current-year total equals the table's column sum -/

theorem lookupYear_mem {idx : Index} {year : Nat} (h : year ∈ idx.map Prod.fst) :
    (year, lookupYear idx year) ∈ idx := by
  induction idx with
  | nil => simp at h
  | cons p rest ih =>
    by_cases hp : p.1 = year
    · simp only [lookupYear, if_pos hp]
      have : (year, p.2) = p := by rw [← hp]
      rw [this]
      exact List.mem_cons_self _ _
    · simp only [lookupYear, if_neg hp]
      have h' : year = p.1 ∨ year ∈ rest.map Prod.fst := by
        rw [List.map_cons] at h
        exact List.mem_cons.1 h
      rcases h' with h' | h'
      · exact absurd h'.symm hp
      · exact List.mem_cons_of_mem _ (ih h')

theorem lookupYear_not_mem {idx : Index} {year : Nat} (h : year ∉ idx.map Prod.fst) :
    lookupYear idx year = [] := by
  induction idx with
  | nil => rfl
  | cons p rest ih =>
    rw [List.map_cons] at h
    simp only [List.mem_cons, not_or] at h
    have hne : ¬ (p.1 = year) := fun he => h.1 he.symm
    simp only [lookupYear, if_neg hne]
    exact ih h.2

/-- C8: for a built AggregationIndex and a year present in it, the
current-year table exists (the sort raises no error) and the sum of its
"Summits Activated" column equals `total_activations` for that year. -/
theorem spec_C8 (resolver : Nat → String) (fetch_activations : String → List Activation)
    (summits : List Summit) (idx : Index) (year : Nat)
    (h : activations_by_year resolver fetch_activations summits = .ok idx)
    (hy : year ∈ idx.map Prod.fst) :
    (df_current idx year).isOk = true ∧
    ∀ rows, df_current idx year = .ok rows →
      (rows.map (fun row => row.SummitsActivated)).sum = total_activations idx year := by
  have hwf := build_IndexWF h
  have hne : lookupYear idx year ≠ [] := (hwf.2 _ (lookupYear_mem hy)).1
  have hrc : ¬ (rows_current idx year = []) := by
    unfold rows_current
    simpa using hne
  constructor
  · simp only [df_current, if_neg hrc]
    rfl
  · intro rows hrows
    simp only [df_current, if_neg hrc] at hrows
    cases Except.ok.inj hrows
    have hperm := List.perm_insertionSort currentRowGe (rows_current idx year)
    rw [(hperm.map (fun row => row.SummitsActivated)).sum_eq]
    unfold rows_current total_activations
    rw [List.map_map]
    rfl

/-- C8 witness: in the §8 scenario the 2024 table is `[(MM0ABC, 1)]` and
its column sum equals `total_activations` for 2024. -/
theorem spec_C8_witness :
    (df_current index0 2024).isOk = true ∧
    (([⟨"MM0ABC", 1⟩] : List CurrentRow).map (fun row => row.SummitsActivated)).sum =
      total_activations index0 2024 :=
  ⟨(spec_C8 resolver0 fetch0 [summit0] index0 2024 rfl (by decide)).1,
   (spec_C8 resolver0 fetch0 [summit0] index0 2024 rfl (by decide)).2 [⟨"MM0ABC", 1⟩] rfl⟩

/-! ### Claims C9 and C10: the most-common-summit statistic -/

theorem charListLe_refl : ∀ xs : List Char, charListLe xs xs = true
  | [] => rfl
  | x :: xs => by simp [charListLe, charListLe_refl xs]

theorem foldr_max_mem : ∀ L : List Nat, L ≠ [] → ∃ a ∈ L, L.foldr max 0 = a
  | [], h => absurd rfl h
  | [x], _ => ⟨x, by simp, by simp⟩
  | x :: y :: rest, _ => by
    obtain ⟨a, ha, he⟩ := foldr_max_mem (y :: rest) (by simp)
    simp only [List.foldr_cons] at he ⊢
    rcases Nat.le_total ((y :: rest).foldr max 0) x with h | h
    · refine ⟨x, by simp, ?_⟩
      simp only [List.foldr_cons] at h
      exact Nat.max_eq_left h
    · refine ⟨a, List.mem_cons_of_mem _ ha, ?_⟩
      simp only [List.foldr_cons] at h he
      rw [Nat.max_eq_right h]
      exact he

theorem mem_le_foldr_max : ∀ (L : List Nat) (a : Nat), a ∈ L → a ≤ L.foldr max 0
  | [], a, h => absurd h (List.not_mem_nil a)
  | x :: rest, a, h => by
    simp only [List.foldr_cons]
    rcases List.mem_cons.1 h with rfl | h
    · exact Nat.le_max_left _ _
    · exact le_trans (mem_le_foldr_max rest a h) (Nat.le_max_right _ _)

theorem count_le_maxFreq {l : List String} {c : String} (h : c ∈ l) :
    l.count c ≤ maxFreq l :=
  mem_le_foldr_max _ _ (List.mem_map_of_mem _ (List.mem_dedup.2 h))

theorem seriesMode_ne_nil {l : List String} (h : l ≠ []) : seriesMode l ≠ [] := by
  have hd : l.dedup ≠ [] := fun hnil => h ((List.dedup_eq_nil l).1 hnil)
  have hm : (l.dedup).map (fun x => l.count x) ≠ [] := by
    cases hdd : l.dedup with
    | nil => exact absurd hdd hd
    | cons a as => simp
  obtain ⟨n, hn, he⟩ := foldr_max_mem _ hm
  rcases List.mem_map.1 hn with ⟨x, hx, rfl⟩
  have hxf : x ∈ (l.dedup).filter (fun x => decide (l.count x = maxFreq l)) :=
    List.mem_filter.2 ⟨hx, by simp [maxFreq, he]⟩
  intro hnil
  have hx2 : x ∈ seriesMode l :=
    (List.perm_insertionSort strLe _).mem_iff.2 hxf
  rw [hnil] at hx2
  exact List.not_mem_nil x hx2

theorem mem_seriesMode {l : List String} {x : String} :
    x ∈ seriesMode l ↔ x ∈ l.dedup ∧ l.count x = maxFreq l := by
  unfold seriesMode
  rw [(List.perm_insertionSort strLe _).mem_iff]
  simp [List.mem_filter]

theorem count_flatten_eq_countP (L : List (String × List String)) (c : String)
    (hnd : ∀ q ∈ L, q.2.Nodup) :
    ((L.map (fun q => q.2)).flatten.count c) = L.countP (fun q => decide (c ∈ q.2)) := by
  induction L with
  | nil => simp
  | cons q rest ih =>
    simp only [List.map_cons, List.flatten_cons, List.count_append, List.countP_cons]
    rw [ih (fun p hp => hnd p (List.mem_cons_of_mem _ hp))]
    have h2 := hnd q (List.mem_cons_self _ _)
    by_cases hc : c ∈ q.2
    · rw [List.count_eq_one_of_mem h2 hc, if_pos (by simpa using hc)]
      omega
    · rw [List.count_eq_zero.2 hc, if_neg (by simpa using hc)]
      omega

theorem count_all_summits_eq_numActivators {idx : Index} (hwf : IndexWF idx)
    (year : Nat) (c : String) :
    (all_summits idx year).count c = numActivators idx year c := by
  have hm : ∀ q ∈ lookupYear idx year, q.2.Nodup := by
    by_cases hy : year ∈ idx.map Prod.fst
    · intro q hq
      exact ((hwf.2 _ (lookupYear_mem hy)).2.2 q hq).2
    · rw [lookupYear_not_mem hy]
      intro q hq
      simp at hq
  unfold all_summits numActivators
  exact count_flatten_eq_countP _ c hm

/-- C9: on a built AggregationIndex, for every year with at least one
membership, `most_common_code` returns a summit code, and any code it
returns occurs in at least as many distinct callsigns' sets for that year
as every summit code appearing in that year. -/
theorem spec_C9 (resolver : Nat → String) (fetch_activations : String → List Activation)
    (summits : List Summit) (idx : Index) (year : Nat)
    (h : activations_by_year resolver fetch_activations summits = .ok idx)
    (hne : all_summits idx year ≠ []) :
    (most_common_code idx year).isSome = true ∧
    ∀ code, most_common_code idx year = some code →
      ∀ c ∈ all_summits idx year,
        numActivators idx year c ≤ numActivators idx year code := by
  have hwf := build_IndexWF h
  constructor
  · have hsm := seriesMode_ne_nil hne
    unfold most_common_code
    cases hm : seriesMode (all_summits idx year) with
    | nil => exact absurd hm hsm
    | cons a as => simp
  · intro code hcode c hc
    have hhead : code ∈ seriesMode (all_summits idx year) := by
      unfold most_common_code at hcode
      cases hm : seriesMode (all_summits idx year) with
      | nil => rw [hm] at hcode; simp at hcode
      | cons a as =>
        rw [hm] at hcode
        simp only [List.head?_cons, Option.some.injEq] at hcode
        rw [← hcode]
        exact List.mem_cons_self a as
    have hmax := (mem_seriesMode.1 hhead).2
    rw [← count_all_summits_eq_numActivators hwf year c,
        ← count_all_summits_eq_numActivators hwf year code, hmax]
    exact count_le_maxFreq hc

/-- C9 witness: in the tie scenario both codes are activated by two
callsigns; the returned code's activator count is maximal. -/
theorem spec_C9_witness :
    (most_common_code tieIndex 2024).isSome = true ∧
    numActivators tieIndex 2024 "GM/SI-002" ≤ numActivators tieIndex 2024 "GM/SI-001" :=
  ⟨(spec_C9 resolver0 fetchTie summitsTie tieIndex 2024 rfl (by decide)).1,
   (spec_C9 resolver0 fetchTie summitsTie tieIndex 2024 rfl (by decide)).2
     "GM/SI-001" rfl "GM/SI-002" (by decide)⟩

/-- C10: any code returned by `most_common_code` attains the maximal
frequency, and is lexicographically (code-point order, `strLe`) least
among all codes of that year attaining the maximal frequency: the
`Series.mode` result is sorted and element 0 is taken, so a tie is settled
deterministically, independent of the input order of the memberships. -/
theorem spec_C10 (idx : Index) (year : Nat) (code : String)
    (h : most_common_code idx year = some code) :
    code ∈ all_summits idx year ∧
    (all_summits idx year).count code = maxFreq (all_summits idx year) ∧
    ∀ c ∈ all_summits idx year,
      (all_summits idx year).count c = maxFreq (all_summits idx year) → strLe code c := by
  unfold most_common_code at h
  cases hm : seriesMode (all_summits idx year) with
  | nil => rw [hm] at h; simp at h
  | cons a as =>
    rw [hm] at h
    simp only [List.head?_cons, Option.some.injEq] at h
    subst h
    have hsorted : List.Sorted strLe (seriesMode (all_summits idx year)) :=
      List.sorted_insertionSort strLe _
    rw [hm] at hsorted
    have hmema : a ∈ seriesMode (all_summits idx year) := by
      rw [hm]
      exact List.mem_cons_self _ _
    have h1 := mem_seriesMode.1 hmema
    refine ⟨List.mem_dedup.1 h1.1, h1.2, ?_⟩
    intro c hc hcmax
    have hcmem : c ∈ seriesMode (all_summits idx year) :=
      mem_seriesMode.2 ⟨List.mem_dedup.2 hc, hcmax⟩
    rw [hm] at hcmem
    rcases List.mem_cons.1 hcmem with rfl | hcmem
    · exact charListLe_refl _
    · exact (List.sorted_cons.1 hsorted).1 c hcmem

/-- C10 witness: with `GM/SI-001` and `GM/SI-002` tied at frequency 2, the
selected code is the lexicographically smaller `GM/SI-001`. -/
theorem spec_C10_witness :
    "GM/SI-001" ∈ all_summits tieIndex 2024 ∧ strLe "GM/SI-001" "GM/SI-002" :=
  ⟨(spec_C10 tieIndex 2024 "GM/SI-001" rfl).1,
   (spec_C10 tieIndex 2024 "GM/SI-001" rfl).2.2 "GM/SI-002" (by decide) (by decide)⟩

/-! ### Claim C2: the top-2-per-year table -/

theorem number_rows_mem {year rank : Nat} {l : CallsignMap} {row : TopRow}
    (h : row ∈ number_rows year rank l) :
    row.Year = year ∧ rank ≤ row.Rank ∧ ∃ q ∈ l, row.SummitsActivated = q.2.length := by
  induction l generalizing rank with
  | nil => simp [number_rows] at h
  | cons q rest ih =>
    simp only [number_rows] at h
    rcases List.mem_cons.1 h with rfl | h2
    · exact ⟨rfl, le_refl _, q, List.mem_cons_self _ _, rfl⟩
    · obtain ⟨h1, hr, q', hq', hs⟩ := ih h2
      exact ⟨h1, by omega, q', List.mem_cons_of_mem _ hq', hs⟩

theorem number_rows_pairwise (year : Nat) :
    ∀ (l : CallsignMap) (rank : Nat), l.Pairwise activatorGe →
      (number_rows year rank l).Pairwise
        (fun a b => a.Rank < b.Rank ∧ b.SummitsActivated ≤ a.SummitsActivated)
  | [], _, _ => List.Pairwise.nil
  | q :: rest, rank, hp => by
    simp only [number_rows]
    refine List.Pairwise.cons ?_
      (number_rows_pairwise year rest (rank + 1) (List.pairwise_cons.1 hp).2)
    intro b hb
    obtain ⟨hY, hR, q', hq', hS⟩ := number_rows_mem hb
    refine ⟨?_, ?_⟩
    · show rank < b.Rank
      omega
    · show b.SummitsActivated ≤ q.2.length
      rw [hS]
      exact (List.pairwise_cons.1 hp).1 q' hq'

theorem length_number_rows (year : Nat) : ∀ (rank : Nat) (l : CallsignMap),
    (number_rows year rank l).length = l.length
  | _, [] => rfl
  | rank, q :: rest => by
    simp only [number_rows, List.length_cons]
    rw [length_number_rows year (rank + 1) rest]

theorem length_sorted_activators (m : CallsignMap) :
    (sorted_activators m).length = min 2 m.length := by
  unfold sorted_activators
  rw [List.length_take, (List.perm_insertionSort activatorGe m).length_eq]

theorem rows_for_year_year {idx : Index} {y : Nat} {row : TopRow}
    (h : row ∈ rows_for_year idx y) : row.Year = y :=
  (number_rows_mem h).1

theorem rows_for_year_pairwise (idx : Index) (y : Nat) :
    (rows_for_year idx y).Pairwise
      (fun a b => a.Rank < b.Rank ∧ b.SummitsActivated ≤ a.SummitsActivated) := by
  unfold rows_for_year
  apply number_rows_pairwise
  unfold sorted_activators
  exact List.Pairwise.sublist (List.take_sublist 2 _)
    (List.sorted_insertionSort activatorGe _)

theorem filter_year_flatten (idx : Index) (y : Nat) :
    ∀ ks : List Nat, ks.Nodup →
      ((ks.map (fun k => rows_for_year idx k)).flatten.filter
        (fun row => decide (row.Year = y))) =
        (if y ∈ ks then rows_for_year idx y else [])
  | [], _ => by simp
  | k :: rest, hnd => by
    simp only [List.map_cons, List.flatten_cons, List.filter_append]
    rw [filter_year_flatten idx y rest (List.nodup_cons.1 hnd).2]
    by_cases hk : k = y
    · subst hk
      have h1 : (rows_for_year idx k).filter (fun row => decide (row.Year = k)) =
          rows_for_year idx k :=
        List.filter_eq_self.2 (fun row hrow => by simp [rows_for_year_year hrow])
      rw [h1, if_neg (List.nodup_cons.1 hnd).1, if_pos (List.mem_cons_self _ _),
        List.append_nil]
    · have h1 : (rows_for_year idx k).filter (fun row => decide (row.Year = y)) = [] :=
        List.filter_eq_nil_iff.2
          (fun row hrow => by simp [rows_for_year_year hrow, hk])
      rw [h1, List.nil_append]
      by_cases hy : y ∈ rest
      · rw [if_pos hy, if_pos (List.mem_cons_of_mem _ hy)]
      · have hnc : y ∉ k :: rest := by
          intro hmem
          rcases List.mem_cons.1 hmem with hh | hh
          · exact hk hh.symm
          · exact hy hh
        rw [if_neg hy, if_neg hnc]

theorem filter_rows_top {idx : Index} (hnd : (idx.map Prod.fst).Nodup) (y : Nat) :
    (rows_top idx).filter (fun row => decide (row.Year = y)) =
      (if y ∈ idx.map Prod.fst then rows_for_year idx y else []) := by
  unfold rows_top
  rw [filter_year_flatten idx y _
    ((List.perm_insertionSort (fun a b => a ≤ b) (idx.map Prod.fst)).nodup_iff.2 hnd)]
  by_cases hy : y ∈ idx.map Prod.fst
  · rw [if_pos ((List.perm_insertionSort _ _).mem_iff.2 hy), if_pos hy]
  · rw [if_neg (fun hmem => hy ((List.perm_insertionSort _ _).mem_iff.1 hmem)),
      if_neg hy]

theorem pairwise_mem_cases {α : Type} {P : α → α → Prop} :
    ∀ {l : List α}, l.Pairwise P → ∀ {a b : α}, a ∈ l → b ∈ l →
      a = b ∨ P a b ∨ P b a := by
  intro l hl
  induction hl with
  | nil => intro a b ha hb; simp at ha
  | cons hhead htail ih =>
    intro a b ha hb
    rcases List.mem_cons.1 ha with rfl | ha2
    · rcases List.mem_cons.1 hb with rfl | hb2
      · exact Or.inl rfl
      · exact Or.inr (Or.inl (hhead b hb2))
    · rcases List.mem_cons.1 hb with rfl | hb2
      · exact Or.inr (Or.inr (hhead a ha2))
      · exact ih ha2 hb2

theorem perm_pair_sorted {R : List Nat} (hp : R.Perm [1, 2])
    (hs : R.Pairwise (fun a b => a ≤ b)) : R = [1, 2] := by
  have hlen : R.length = 2 := by simpa using hp.length_eq
  obtain ⟨x, y, rfl⟩ := List.length_eq_two.1 hlen
  have hxm : x = 1 ∨ x = 2 := by
    have h0 : x ∈ [x, y] := List.mem_cons_self _ _
    have := hp.mem_iff.1 h0
    simpa using this
  have hym : y = 1 ∨ y = 2 := by
    have h0 : y ∈ [x, y] := by simp
    have := hp.mem_iff.1 h0
    simpa using this
  have h1m : (1 : Nat) = x ∨ 1 = y := by
    have h0 : (1 : Nat) ∈ [1, 2] := by simp
    have := hp.mem_iff.2 h0
    simpa using this
  have h2m : (2 : Nat) = x ∨ 2 = y := by
    have h0 : (2 : Nat) ∈ [1, 2] := by simp
    have := hp.mem_iff.2 h0
    simpa using this
  have hxy : x ≤ y := (List.pairwise_cons.1 hs).1 y (by simp)
  rcases hxm with rfl | rfl <;> rcases hym with rfl | rfl
  · exfalso; rcases h2m with hh | hh <;> omega
  · rfl
  · exfalso; omega
  · exfalso; rcases h1m with hh | hh <;> omega

/-- C2: for a built AggregationIndex, whenever the top-2-per-year table is
produced, it has at most 2 rows per year; for each year present in the
index the ranks of that year's rows are exactly `[1]` (when that year has
a single callsign) or `[1, 2]` (two or more callsigns), in that order;
within a year the rank-1 row's summit count is at least the rank-2 row's;
and the whole table is ordered by year descending, then rank ascending. -/
theorem spec_C2 (resolver : Nat → String) (fetch_activations : String → List Activation)
    (summits : List Summit) (idx : Index) (out : List TopRow)
    (h : activations_by_year resolver fetch_activations summits = .ok idx)
    (hdf : df_top idx = .ok out) :
    (∀ y, (out.filter (fun row => decide (row.Year = y))).length ≤ 2) ∧
    (∀ y, y ∈ idx.map Prod.fst →
      ((lookupYear idx y).length = 1 ∧
        (out.filter (fun row => decide (row.Year = y))).map TopRow.Rank = [1]) ∨
      (2 ≤ (lookupYear idx y).length ∧
        (out.filter (fun row => decide (row.Year = y))).map TopRow.Rank = [1, 2])) ∧
    (∀ r1 r2, r1 ∈ out → r2 ∈ out → r1.Year = r2.Year → r1.Rank < r2.Rank →
      r2.SummitsActivated ≤ r1.SummitsActivated) ∧
    out.Pairwise topRowLe := by
  have hwf := build_IndexWF h
  have hne : ¬ (rows_top idx = []) := by
    intro hnil
    simp only [df_top, if_pos hnil] at hdf
    exact Except.noConfusion hdf
  simp only [df_top, if_neg hne] at hdf
  have hout : List.insertionSort topRowLe (rows_top idx) = out := Except.ok.inj hdf
  subst hout
  have hperm : (List.insertionSort topRowLe (rows_top idx)).Perm (rows_top idx) :=
    List.perm_insertionSort topRowLe (rows_top idx)
  have hsorted : (List.insertionSort topRowLe (rows_top idx)).Pairwise topRowLe :=
    List.sorted_insertionSort topRowLe (rows_top idx)
  have hfilter : ∀ y, ((List.insertionSort topRowLe (rows_top idx)).filter
      (fun row => decide (row.Year = y))).Perm
      (if y ∈ idx.map Prod.fst then rows_for_year idx y else []) := by
    intro y
    rw [← filter_rows_top hwf.1 y]
    exact hperm.filter _
  refine ⟨?_, ?_, ?_, hsorted⟩
  · intro y
    rw [(hfilter y).length_eq]
    by_cases hy : y ∈ idx.map Prod.fst
    · rw [if_pos hy]
      unfold rows_for_year
      rw [length_number_rows, length_sorted_activators]
      omega
    · rw [if_neg hy]
      simp
  · intro y hy
    have hlm : lookupYear idx y ≠ [] := (hwf.2 _ (lookupYear_mem hy)).1
    have hlen1 : 1 ≤ (lookupYear idx y).length := by
      cases hl : lookupYear idx y with
      | nil => exact absurd hl hlm
      | cons a as => simp
    have hfy := hfilter y
    rw [if_pos hy] at hfy
    have hpr := hfy.map TopRow.Rank
    have hps : ((List.insertionSort topRowLe (rows_top idx)).filter
        (fun row => decide (row.Year = y))).Pairwise
        (fun a b => a.Rank ≤ b.Rank) := by
      refine List.Pairwise.imp_of_mem (fun {a b} ha hb hab => ?_)
        (List.Pairwise.filter _ hsorted)
      have hay : a.Year = y := by
        have := (List.mem_filter.1 ha).2
        simpa using this
      have hby : b.Year = y := by
        have := (List.mem_filter.1 hb).2
        simpa using this
      rcases hab with hh | hh
      · omega
      · exact hh.2
    have hranks_sorted : (((List.insertionSort topRowLe (rows_top idx)).filter
        (fun row => decide (row.Year = y))).map TopRow.Rank).Pairwise
        (fun a b => a ≤ b) := by
      rw [List.pairwise_map]
      exact hps
    rcases Nat.lt_or_ge (lookupYear idx y).length 2 with hsmall | hbig
    · have hl1 : (lookupYear idx y).length = 1 := by omega
      left
      refine ⟨hl1, ?_⟩
      have hsa : (sorted_activators (lookupYear idx y)).length = 1 := by
        rw [length_sorted_activators]
        omega
      obtain ⟨q, hq⟩ := List.length_eq_one.1 hsa
      have hblock : (rows_for_year idx y).map TopRow.Rank = [1] := by
        unfold rows_for_year
        rw [hq]
        rfl
      rw [hblock] at hpr
      exact List.perm_singleton.1 hpr
    · right
      refine ⟨hbig, ?_⟩
      have hsa : (sorted_activators (lookupYear idx y)).length = 2 := by
        rw [length_sorted_activators]
        omega
      obtain ⟨q1, q2, hq⟩ := List.length_eq_two.1 hsa
      have hblock : (rows_for_year idx y).map TopRow.Rank = [1, 2] := by
        unfold rows_for_year
        rw [hq]
        rfl
      rw [hblock] at hpr
      exact perm_pair_sorted hpr hranks_sorted
  · intro r1 r2 h1 h2 hyy hrr
    have h1' : r1 ∈ rows_top idx := hperm.mem_iff.1 h1
    have h2' : r2 ∈ rows_top idx := hperm.mem_iff.1 h2
    have hf1 : r1 ∈ (rows_top idx).filter (fun row => decide (row.Year = r1.Year)) :=
      List.mem_filter.2 ⟨h1', by simp⟩
    have hf2 : r2 ∈ (rows_top idx).filter (fun row => decide (row.Year = r1.Year)) :=
      List.mem_filter.2 ⟨h2', by simp [hyy]⟩
    rw [filter_rows_top hwf.1] at hf1 hf2
    by_cases hy : r1.Year ∈ idx.map Prod.fst
    · rw [if_pos hy] at hf1 hf2
      rcases pairwise_mem_cases (rows_for_year_pairwise idx r1.Year) hf1 hf2 with
        rfl | hP | hP
      · omega
      · exact hP.2
      · exact absurd hP.1 (by omega)
    · rw [if_neg hy] at hf1
      simp at hf1

/-- C2 witness: the §8 scenario's table `[(2024,1,MM0ABC,1), (2023,1,
MM0XYZ,1)]` has at most 2 rows per year, year 2023's ranks are `[1]`, and
the table is sorted by year descending then rank ascending. -/
theorem spec_C2_witness :
    (([⟨2024, 1, "MM0ABC", 1⟩, ⟨2023, 1, "MM0XYZ", 1⟩] : List TopRow).filter
      (fun row => decide (row.Year = 2024))).length ≤ 2 ∧
    (((lookupYear index0 2023).length = 1 ∧
      (([⟨2024, 1, "MM0ABC", 1⟩, ⟨2023, 1, "MM0XYZ", 1⟩] : List TopRow).filter
        (fun row => decide (row.Year = 2023))).map TopRow.Rank = [1]) ∨
     (2 ≤ (lookupYear index0 2023).length ∧
      (([⟨2024, 1, "MM0ABC", 1⟩, ⟨2023, 1, "MM0XYZ", 1⟩] : List TopRow).filter
        (fun row => decide (row.Year = 2023))).map TopRow.Rank = [1, 2])) ∧
    ([⟨2024, 1, "MM0ABC", 1⟩, ⟨2023, 1, "MM0XYZ", 1⟩] : List TopRow).Pairwise topRowLe := by
  have hc := spec_C2 resolver0 fetch0 [summit0] index0
    [⟨2024, 1, "MM0ABC", 1⟩, ⟨2023, 1, "MM0XYZ", 1⟩] rfl rfl
  exact ⟨hc.1 2024, hc.2.1 2023 (by decide), hc.2.2.2⟩
